import Mathlib

/-!
Verification development for the HyperCore CoreWriter / Multicall examples
(`corewriter_example.py`, `multicall_example.py`).

Bytes are modelled as `List Nat` (each element a byte value), hex strings as
`List Char`.  The `eth_abi` `encode`/`decode` calls used by the source are
modelled at the byte level: scalar values occupy one 32-byte big-endian word,
out-of-range values make `encode` raise (modelled by `Option`), and the strict
decoder validates padding bytes.  Python exceptions escaping a function are
modelled by `Option`/`Except` results.
-/

namespace HLDev

/-- Big-endian byte representation of `n` in exactly `w` bytes
(most significant first, value taken modulo `256 ^ w`). -/
def beBytes : Nat → Nat → List Nat
  | 0, _ => []
  | w + 1, n => beBytes w (n / 256) ++ [n % 256]

/-- One 32-byte ABI word holding `n` right-aligned (big-endian, left
zero-padded). -/
def word (n : Nat) : List Nat := beBytes 32 n

/-- Big-endian value of a byte list. -/
def beVal (bs : List Nat) : Nat := bs.foldl (fun a b => a * 256 + b) 0

/-- Round `n` up to the next multiple of 32 (eth-abi `ceil32`). -/
def ceil32 (n : Nat) : Nat := ((n + 31) / 32) * 32

/-- `eth_abi.encode` of a `uintN` value: one word, raising (→ `none`) when the
value does not fit in `bits` bits. -/
def encodeUint (bits : Nat) (n : Nat) : Option (List Nat) :=
  if n < 2 ^ bits then some (word n) else none

/-- `eth_abi.encode` of a `bool` value: one word holding 0 or 1. -/
def encodeBool (b : Bool) : List Nat := word (if b then 1 else 0)

/-- `eth_abi.encode` of an `address` value (addresses are modelled by their
160-bit numeric value; `Web3.to_checksum_address` raises on anything else). -/
def encodeAddress (a : Nat) : Option (List Nat) :=
  if a < 2 ^ 160 then some (word a) else none

/-- Standard UTF-8 encoding of one code point (1 to 4 bytes). -/
def utf8EncodeChar (c : Char) : List Nat :=
  let n := c.toNat
  if n < 0x80 then [n]
  else if n < 0x800 then
    [0xC0 ||| (n >>> 6), 0x80 ||| (n &&& 0x3F)]
  else if n < 0x10000 then
    [0xE0 ||| (n >>> 12), 0x80 ||| ((n >>> 6) &&& 0x3F), 0x80 ||| (n &&& 0x3F)]
  else
    [0xF0 ||| (n >>> 18), 0x80 ||| ((n >>> 12) &&& 0x3F),
      0x80 ||| ((n >>> 6) &&& 0x3F), 0x80 ||| (n &&& 0x3F)]

/-- UTF-8 bytes of a string (Python `str.encode("utf-8")`). -/
def utf8Bytes (s : String) : List Nat := s.data.flatMap utf8EncodeChar

/-- Tail part of `eth_abi.encode` for a `string` value: a length word followed
by the UTF-8 bytes right-padded with zeros to a 32-byte boundary. -/
def encodeString (s : String) : List Nat :=
  let bs := utf8Bytes s
  word bs.length ++ bs ++ List.replicate (ceil32 bs.length - bs.length) 0

/-! ## corewriter_example.py : constants and parameter records -/

/-- Action encoding version (`VERSION = 0x01`). -/
def VERSION : Nat := 0x01

namespace ActionId

def limitOrder : Nat := 1
def vaultTransfer : Nat := 2
def tokenDelegate : Nat := 3
def stakingDeposit : Nat := 4
def stakingWithdraw : Nat := 5
def spotSend : Nat := 6
def usdClassTransfer : Nat := 7
def finalizeEvmContract : Nat := 8
def addApiWallet : Nat := 9
def cancelOrderByOid : Nat := 10
def cancelOrderByCloid : Nat := 11
def approveBuilderFee : Nat := 12
def sendAsset : Nat := 13
def reflectEvmSupply : Nat := 14
def borrowLendOp : Nat := 15

end ActionId

structure LimitOrderParams where
  asset : Nat
  is_buy : Bool
  limit_px : Nat
  sz : Nat
  reduce_only : Bool
  encoded_tif : Nat
  cloid : Nat

structure VaultTransferParams where
  vault : Nat
  is_deposit : Bool
  usd : Nat

structure TokenDelegateParams where
  validator : Nat
  wei : Nat
  is_undelegate : Bool

structure StakingParams where
  wei : Nat

structure SpotSendParams where
  destination : Nat
  token : Nat
  wei : Nat

structure UsdClassTransferParams where
  ntl : Nat
  to_perp : Bool

structure FinalizeEvmContractParams where
  token : Nat
  variant : Nat
  create_nonce : Nat

structure AddApiWalletParams where
  wallet : Nat
  name : String

structure CancelOrderByOidParams where
  asset : Nat
  oid : Nat

structure CancelOrderByCloidParams where
  asset : Nat
  cloid : Nat

structure ApproveBuilderFeeParams where
  max_fee_rate : Nat
  builder : Nat

structure SendAssetParams where
  dest : Nat
  sub_account : Nat
  src_dex : Nat
  dest_dex : Nat
  token : Nat
  wei : Nat

structure ReflectEvmSupplyParams where
  token : Nat
  wei : Nat
  is_mint : Bool

structure BorrowLendOpParams where
  operation : Nat
  token : Nat
  wei : Nat

/-! ## corewriter_example.py : HyperCoreWriter -/

/-- `HyperCoreWriter._encode_header`: 4 bytes
`[VERSION, (id >> 16) & 0xFF, (id >> 8) & 0xFF, id & 0xFF]`. -/
def encode_header (action_id : Nat) : List Nat :=
  [VERSION, (action_id >>> 16) % 256, (action_id >>> 8) % 256, action_id % 256]

/-- `HyperCoreWriter._concat_bytes`: header ++ data. -/
def concat_bytes (header data : List Nat) : List Nat := header ++ data

/-- `build_limit_order`. -/
def build_limit_order (p : LimitOrderParams) : Option (List Nat) := do
  let w0 ← encodeUint 32 p.asset
  let w2 ← encodeUint 64 p.limit_px
  let w3 ← encodeUint 64 p.sz
  let w5 ← encodeUint 8 p.encoded_tif
  let w6 ← encodeUint 128 p.cloid
  pure (concat_bytes (encode_header ActionId.limitOrder)
    (w0 ++ encodeBool p.is_buy ++ w2 ++ w3 ++ encodeBool p.reduce_only ++ w5 ++ w6))

/-- `build_vault_transfer`. -/
def build_vault_transfer (p : VaultTransferParams) : Option (List Nat) := do
  let w0 ← encodeAddress p.vault
  let w2 ← encodeUint 64 p.usd
  pure (concat_bytes (encode_header ActionId.vaultTransfer)
    (w0 ++ encodeBool p.is_deposit ++ w2))

/-- `build_token_delegate`. -/
def build_token_delegate (p : TokenDelegateParams) : Option (List Nat) := do
  let w0 ← encodeAddress p.validator
  let w1 ← encodeUint 64 p.wei
  pure (concat_bytes (encode_header ActionId.tokenDelegate)
    (w0 ++ w1 ++ encodeBool p.is_undelegate))

/-- `build_staking_deposit`. -/
def build_staking_deposit (p : StakingParams) : Option (List Nat) := do
  let w0 ← encodeUint 64 p.wei
  pure (concat_bytes (encode_header ActionId.stakingDeposit) w0)

/-- `build_staking_withdraw`. -/
def build_staking_withdraw (p : StakingParams) : Option (List Nat) := do
  let w0 ← encodeUint 64 p.wei
  pure (concat_bytes (encode_header ActionId.stakingWithdraw) w0)

/-- `build_spot_send`. -/
def build_spot_send (p : SpotSendParams) : Option (List Nat) := do
  let w0 ← encodeAddress p.destination
  let w1 ← encodeUint 64 p.token
  let w2 ← encodeUint 64 p.wei
  pure (concat_bytes (encode_header ActionId.spotSend) (w0 ++ w1 ++ w2))

/-- `build_usd_class_transfer`. -/
def build_usd_class_transfer (p : UsdClassTransferParams) : Option (List Nat) := do
  let w0 ← encodeUint 64 p.ntl
  pure (concat_bytes (encode_header ActionId.usdClassTransfer)
    (w0 ++ encodeBool p.to_perp))

/-- `build_finalize_evm_contract`. -/
def build_finalize_evm_contract (p : FinalizeEvmContractParams) : Option (List Nat) := do
  let w0 ← encodeUint 64 p.token
  let w1 ← encodeUint 8 p.variant
  let w2 ← encodeUint 64 p.create_nonce
  pure (concat_bytes (encode_header ActionId.finalizeEvmContract) (w0 ++ w1 ++ w2))

/-- `build_add_api_wallet`: `encode(["address", "string"], [wallet, name])`.
The tuple head is two words (the address word and the string's offset word),
so the offset word holds 0x40; the string tail follows. -/
def build_add_api_wallet (p : AddApiWalletParams) : Option (List Nat) := do
  let w0 ← encodeAddress p.wallet
  pure (concat_bytes (encode_header ActionId.addApiWallet)
    (w0 ++ word 64 ++ encodeString p.name))

/-- `build_cancel_order_by_oid`. -/
def build_cancel_order_by_oid (p : CancelOrderByOidParams) : Option (List Nat) := do
  let w0 ← encodeUint 32 p.asset
  let w1 ← encodeUint 64 p.oid
  pure (concat_bytes (encode_header ActionId.cancelOrderByOid) (w0 ++ w1))

/-- `build_cancel_order_by_cloid`. -/
def build_cancel_order_by_cloid (p : CancelOrderByCloidParams) : Option (List Nat) := do
  let w0 ← encodeUint 32 p.asset
  let w1 ← encodeUint 128 p.cloid
  pure (concat_bytes (encode_header ActionId.cancelOrderByCloid) (w0 ++ w1))

/-- `build_approve_builder_fee`. -/
def build_approve_builder_fee (p : ApproveBuilderFeeParams) : Option (List Nat) := do
  let w0 ← encodeUint 64 p.max_fee_rate
  let w1 ← encodeAddress p.builder
  pure (concat_bytes (encode_header ActionId.approveBuilderFee) (w0 ++ w1))

/-- `build_send_asset`. -/
def build_send_asset (p : SendAssetParams) : Option (List Nat) := do
  let w0 ← encodeAddress p.dest
  let w1 ← encodeAddress p.sub_account
  let w2 ← encodeUint 32 p.src_dex
  let w3 ← encodeUint 32 p.dest_dex
  let w4 ← encodeUint 64 p.token
  let w5 ← encodeUint 64 p.wei
  pure (concat_bytes (encode_header ActionId.sendAsset)
    (w0 ++ w1 ++ w2 ++ w3 ++ w4 ++ w5))

/-- `build_reflect_evm_supply`. -/
def build_reflect_evm_supply (p : ReflectEvmSupplyParams) : Option (List Nat) := do
  let w0 ← encodeUint 64 p.token
  let w1 ← encodeUint 64 p.wei
  pure (concat_bytes (encode_header ActionId.reflectEvmSupply)
    (w0 ++ w1 ++ encodeBool p.is_mint))

/-- `build_borrow_lend_op`. -/
def build_borrow_lend_op (p : BorrowLendOpParams) : Option (List Nat) := do
  let w0 ← encodeUint 8 p.operation
  let w1 ← encodeUint 64 p.token
  let w2 ← encodeUint 64 p.wei
  pure (concat_bytes (encode_header ActionId.borrowLendOp) (w0 ++ w1 ++ w2))

/-! ## decode_action -/

structure DecodedAction where
  version : Nat
  action_id : Nat
  params : List Nat
deriving DecidableEq

/-- A Python exception escaping to the caller. -/
inductive PyErr where
  | indexError
  | valueError
deriving DecidableEq

/-- `decode_action` applied to a byte input: reads `data[0]`, `data[1..3]`
and `data[4:]`; indexing a byte beyond the end raises `IndexError`. -/
def decode_action_bytes : List Nat → Except PyErr DecodedAction
  | b0 :: b1 :: b2 :: b3 :: rest =>
      .ok ⟨b0, b1 <<< 16 ||| b2 <<< 8 ||| b3, rest⟩
  | _ => .error .indexError

/-- Value of one hex digit character, if any. -/
def hexDigitVal (c : Char) : Option Nat :=
  if '0' ≤ c ∧ c ≤ '9' then some (c.toNat - '0'.toNat)
  else if 'a' ≤ c ∧ c ≤ 'f' then some (c.toNat - 'a'.toNat + 10)
  else if 'A' ≤ c ∧ c ≤ 'F' then some (c.toNat - 'A'.toNat + 10)
  else none

/-- ASCII whitespace skipped by `bytes.fromhex` between byte pairs (Python
>= 3.7 ignores all ASCII whitespace, not only spaces): tab, LF, VT, FF, CR
and space. -/
def isAsciiWs (c : Char) : Bool :=
  c.toNat == 9 || c.toNat == 10 || c.toNat == 11 || c.toNat == 12 ||
    c.toNat == 13 || c.toNat == 32

/-- Python `bytes.fromhex`: pairs of hex digits, ASCII whitespace allowed
between pairs, anything else raises `ValueError`. -/
def fromhex : List Char → Except PyErr (List Nat)
  | [] => .ok []
  | c :: rest =>
    if isAsciiWs c then fromhex rest
    else
      match rest with
      | [] => .error .valueError
      | c2 :: rest2 =>
        match hexDigitVal c, hexDigitVal c2 with
        | some hi, some lo => (fromhex rest2).map (fun bs => (16 * hi + lo) :: bs)
        | _, _ => .error .valueError

/-- Python `s.replace("0x", "")`: remove every (non-overlapping,
left-to-right) occurrence of `0x`. -/
def strip0x : List Char → List Char
  | '0' :: 'x' :: rest => strip0x rest
  | c :: rest => c :: strip0x rest
  | [] => []

/-- `decode_action` applied to a hex-string input: strip `0x`, convert from
hex (`ValueError` on invalid characters), then decode the bytes. -/
def decode_action_hex (s : List Char) : Except PyErr DecodedAction := do
  let bs ← fromhex (strip0x s)
  decode_action_bytes bs

/-! ## multicall_example.py : records and chunking -/

structure Position where
  perp_index : Nat
  szi : Int
  entry_ntl : Nat
  isolated_raw_usd : Int
  leverage : Nat
  is_isolated : Bool
deriving DecidableEq

structure SpotBalance where
  token_index : Nat
  total : Nat
  hold : Nat
  entry_ntl : Nat
deriving DecidableEq

structure PerpAssetInfo where
  index : Nat
  coin : String
  margin_table_id : Nat
  sz_decimals : Nat
  max_leverage : Nat
  only_isolated : Bool
deriving DecidableEq

/-- `chunk_list(lst, chunk_size)`:
`[lst[i:i+chunk_size] for i in range(0, len(lst), chunk_size)]`
(for `chunk_size = 0` Python's `range` raises `ValueError`; the model returns
`[]` there and every claim about `chunk_list` assumes a positive size). -/
def chunk_list (lst : List α) (chunk_size : Nat) : List (List α) :=
  (List.range ((lst.length + chunk_size - 1) / chunk_size)).map
    (fun j => (lst.drop (j * chunk_size)).take chunk_size)

/-! ## eth_abi strict decoding of static tuples -/

/-- Read the `i`-th 32-byte word of a response buffer; reading past the end
raises `InsufficientDataBytes` (→ `none`). -/
def wordAt (data : List Nat) (i : Nat) : Option (List Nat) :=
  if 32 * (i + 1) ≤ data.length then some ((data.drop (32 * i)).take 32)
  else none

/-- Strict `uintN` word decode: the padding bytes must be zero, i.e. the word
value must fit in `bits` bits. -/
def decUint (bits : Nat) (w : List Nat) : Option Nat :=
  if beVal w < 2 ^ bits then some (beVal w) else none

/-- Strict `intN` word decode: two's-complement value of the low `bits` bits,
with the padding bytes required to be the value's sign extension. -/
def decInt (bits : Nat) (w : List Nat) : Option Int :=
  let v := beVal w
  let lo := v % 2 ^ bits
  let hi := v / 2 ^ bits
  if lo < 2 ^ (bits - 1) then
    if hi = 0 then some (lo : Int) else none
  else
    if hi = 2 ^ (256 - bits) - 1 then some ((lo : Int) - (2 ^ bits : Nat)) else none

/-- Strict `bool` word decode: the word must hold exactly 0 or 1. -/
def decBool (w : List Nat) : Option Bool :=
  if beVal w = 0 then some false
  else if beVal w = 1 then some true
  else none

/-- `decode(["int64","uint64","int64","uint32","bool"], data)`; trailing
bytes beyond the five words are ignored. -/
def decode_position_tuple (data : List Nat) :
    Option (Int × Nat × Int × Nat × Bool) := do
  let szi ← decInt 64 (← wordAt data 0)
  let entry_ntl ← decUint 64 (← wordAt data 1)
  let isolated_raw_usd ← decInt 64 (← wordAt data 2)
  let leverage ← decUint 32 (← wordAt data 3)
  let is_isolated ← decBool (← wordAt data 4)
  pure (szi, entry_ntl, isolated_raw_usd, leverage, is_isolated)

/-- `decode(["uint64","uint64","uint64"], data)`; needs three full words. -/
def decode_spot_balance_tuple (data : List Nat) : Option (Nat × Nat × Nat) := do
  let total ← decUint 64 (← wordAt data 0)
  let hold ← decUint 64 (← wordAt data 1)
  let entry_ntl ← decUint 64 (← wordAt data 2)
  pure (total, hold, entry_ntl)

/-- `decode(["uint64"], data)`. -/
def decode_uint64 (data : List Nat) : Option Nat := do
  decUint 64 (← wordAt data 0)

/-! ## multicall_example.py : batch calls

A Multicall3 `aggregate3` call is a list of `(target, allowFailure, calldata)`
triples (targets modelled by their precompile address value); the collaborator
(`Oracle`) returns a list of `(success, returnData)` pairs. -/

abbrev Call := Nat × Bool × List Nat

abbrev BatchElem := Bool × List Nat

abbrev Oracle := List Call → List BatchElem

def positionAddr : Nat := 0x800
def spotBalanceAddr : Nat := 0x801
def markPxAddr : Nat := 0x806

/-- `_encode_call(target, calldata)` yields `(target, True, calldata)`. -/
def encode_call (target : Nat) (calldata : List Nat) : Call :=
  (target, true, calldata)

/-- A Python list comprehension whose element expression may raise: the
first raise aborts the whole comprehension. -/
def mapOption (f : α → Option β) : List α → Option (List β)
  | [] => some []
  | x :: xs => do
      let y ← f x
      let ys ← mapOption f xs
      pure (y :: ys)

/-- The calls built by `batch_get_mark_prices`:
`encode(["uint32"], [idx])` per index. -/
def mkMarkPxCalls (idxs : List Nat) : Option (List Call) :=
  mapOption (fun i => do
    let w ← encodeUint 32 i
    pure (encode_call markPxAddr w)) idxs

/-- The result loop of `batch_get_mark_prices`: for each `(success, data)`
with `success` and non-empty `data`, decode a `uint64` and store it under
`perp_indices[i]`.  The decode and the indexing are not wrapped in
`try`/`except` here, so a failure raises out of the whole call (→ `none`). -/
def collectPrices (idxs : List Nat) : List BatchElem → Nat → Option (List (Nat × Nat))
  | [], _ => some []
  | (s, d) :: rest, i =>
    if s ∧ d.length > 0 then do
      let p ← decode_uint64 d
      let idx ← idxs.get? i
      let tail ← collectPrices idxs rest (i + 1)
      pure ((idx, p) :: tail)
    else collectPrices idxs rest (i + 1)

/-- `batch_get_mark_prices` (the price dictionary is modelled as the ordered
list of key/value pairs inserted into it). -/
def batch_get_mark_prices (o : Oracle) (idxs : List Nat) : Option (List (Nat × Nat)) := do
  let calls ← mkMarkPxCalls idxs
  collectPrices idxs (o calls) 0

/-- `get_all_mark_prices`: chunk `range(225)` by 200 and merge the per-chunk
dictionaries (`update` on disjoint key sets appends the entries). -/
def get_all_mark_prices (o : Oracle) : Option (List (Nat × Nat)) :=
  (chunk_list (List.range 225) 200).foldlM
    (fun acc c => do
      let ps ← batch_get_mark_prices o c
      pure (acc ++ ps))
    []

/-- The calls built by `batch_get_positions`:
`encode(["address","uint16"], [user, idx])` per index. -/
def mkPositionCalls (user : Nat) (idxs : List Nat) : Option (List Call) := do
  let ua ← encodeAddress user
  mapOption (fun i => do
    let w ← encodeUint 16 i
    pure (encode_call positionAddr (ua ++ w))) idxs

/-- The result loop of `batch_get_positions`: one record per element with
`success`, `len(return_data) >= 32` and a successful strict decode; every
exception inside the loop body is swallowed (`except Exception: pass`), so
elements beyond `len(perp_indices)` are skipped too — the loop is a
`filterMap` over `zip(perp_indices, results)`. -/
def collectPositions (idxs : List Nat) (results : List BatchElem) : List Position :=
  (idxs.zip results).filterMap (fun (idx, s, d) =>
    if s ∧ d.length ≥ 32 then
      match decode_position_tuple d with
      | some (szi, entry_ntl, isolated_raw_usd, leverage, is_isolated) =>
          some ⟨idx, szi, entry_ntl, isolated_raw_usd, leverage, is_isolated⟩
      | none => none
    else none)

/-- `batch_get_positions`. -/
def batch_get_positions (o : Oracle) (user : Nat) (idxs : List Nat) :
    Option (List Position) := do
  let calls ← mkPositionCalls user idxs
  pure (collectPositions idxs (o calls))

/-- `get_all_positions`: chunk `range(225)` by 200, one batch per chunk,
concatenating (`extend`) the per-chunk record lists. -/
def get_all_positions (o : Oracle) (user : Nat) : Option (List Position) :=
  (chunk_list (List.range 225) 200).foldlM
    (fun acc c => do
      let ps ← batch_get_positions o user c
      pure (acc ++ ps))
    []

/-- `get_non_zero_positions`: `[p for p in all_positions if p.szi != 0]`. -/
def get_non_zero_positions (o : Oracle) (user : Nat) : Option (List Position) := do
  let all_positions ← get_all_positions o user
  pure (all_positions.filter (fun p => p.szi ≠ 0))

/-- The calls built by `batch_get_spot_balances`:
`encode(["address","uint64"], [user, idx])` per index. -/
def mkSpotBalanceCalls (user : Nat) (idxs : List Nat) : Option (List Call) := do
  let ua ← encodeAddress user
  mapOption (fun i => do
    let w ← encodeUint 64 i
    pure (encode_call spotBalanceAddr (ua ++ w))) idxs

/-- One iteration of the spot-balance result loop: the `success` flag and
the `len(return_data) >= 24` guard, then the strict three-word decode whose
exceptions are swallowed (`except Exception: pass`). -/
def spotBalanceElem (idx : Nat) (e : BatchElem) : Option SpotBalance :=
  if e.1 ∧ e.2.length ≥ 24 then
    match decode_spot_balance_tuple e.2 with
    | some (total, hold, entry_ntl) => some ⟨idx, total, hold, entry_ntl⟩
    | none => none
  else none

/-- The result loop of `batch_get_spot_balances`: one `spotBalanceElem`
attempt per element, records kept in slot order. -/
def collectBalances (idxs : List Nat) (results : List BatchElem) : List SpotBalance :=
  (idxs.zip results).filterMap (fun (idx, e) => spotBalanceElem idx e)

/-- `batch_get_spot_balances`. -/
def batch_get_spot_balances (o : Oracle) (user : Nat) (idxs : List Nat) :
    Option (List SpotBalance) := do
  let calls ← mkSpotBalanceCalls user idxs
  pure (collectBalances idxs (o calls))

/-- `get_all_spot_balances`: chunk `range(425)` by 300. -/
def get_all_spot_balances (o : Oracle) (user : Nat) : Option (List SpotBalance) :=
  (chunk_list (List.range 425) 300).foldlM
    (fun acc c => do
      let bs ← batch_get_spot_balances o user c
      pure (acc ++ bs))
    []

/-- `get_non_zero_balances`: `[b for b in all_balances if b.total != 0]`. -/
def get_non_zero_balances (o : Oracle) (user : Nat) : Option (List SpotBalance) := do
  let all_balances ← get_all_spot_balances o user
  pure (all_balances.filter (fun b => b.total ≠ 0))

/-! ## _parse_perp_asset_info

The source parses the *hex string* of the response (`return_data.hex()`),
slicing 64-hex-character windows; Python string slicing clips at the end of
the string and `int(s, 16)` raises `ValueError` exactly on an empty or
non-hex-digit slice.  The whole body sits in a `try`/`except` returning
`None`.  The leading `"0x"` of the source's `hex_data` is dropped here, so a
window starts at `wi * 64` instead of `2 + wi * 64`. -/

def hexCharOfNat (n : Nat) : Char :=
  if n < 10 then Char.ofNat ('0'.toNat + n) else Char.ofNat ('a'.toNat + n - 10)

/-- `bytes.hex()`: two lowercase hex digits per byte. -/
def hexOfBytes (bs : List Nat) : List Char :=
  bs.flatMap (fun b => [hexCharOfNat (b / 16), hexCharOfNat (b % 16)])

/-- Python slice `s[start : start + len]` (clipped at the end). -/
def sliceStr (s : List Char) (start len : Nat) : List Char :=
  (s.drop start).take len

/-- Python `int(s, 16)` on a pure-hex-digit domain: `ValueError` (→ `none`)
on an empty slice or a non-hex-digit character. -/
def intHex : List Char → Option Nat
  | [] => none
  | cs => cs.foldlM (fun a c => do pure (a * 16 + (← hexDigitVal c))) 0

/-- `read_uint(word_index)`: parse the 64-character window at the given word
index. -/
def read_uint (hexData : List Char) (wi : Nat) : Option Nat :=
  intHex (sliceStr hexData (wi * 64) 64)

/-- The character-building loop over `string_hex`: two characters per step
(`int(string_hex[j:j+2], 16)`), appending `chr(code)` for codes above 0. -/
def buildCoin : List Char → String → Option String
  | [], acc => some acc
  | [c], acc => do
      let code ← intHex [c]
      pure (if code > 0 then acc.push (Char.ofNat code) else acc)
  | c1 :: c2 :: rest, acc => do
      let code ← intHex [c1, c2]
      buildCoin rest (if code > 0 then acc.push (Char.ofNat code) else acc)

/-- `_parse_perp_asset_info` over the raw response bytes. -/
def parse_perp_asset_info (data : List Nat) (index : Nat) : Option PerpAssetInfo := do
  let hexData := hexOfBytes data
  let tuple_offset := (← read_uint hexData 0) / 32
  let string_offset ← read_uint hexData tuple_offset
  let margin_table_id ← read_uint hexData (tuple_offset + 1)
  let sz_decimals ← read_uint hexData (tuple_offset + 2)
  let max_leverage ← read_uint hexData (tuple_offset + 3)
  let only_isolated := (← read_uint hexData (tuple_offset + 4)) ≠ 0
  let string_start := tuple_offset + string_offset / 32
  let string_length ← read_uint hexData string_start
  let string_hex := sliceStr hexData ((string_start + 1) * 64) (string_length * 2)
  let coin ← buildCoin string_hex ""
  pure ⟨index, coin, margin_table_id, sz_decimals, max_leverage, only_isolated⟩



/-- A well-formed `perpAssetInfo` response whose string segment encodes
`"BTC"`: a tuple-offset word `0x20`, five head words (string offset `0xa0`,
marginTableId 50, szDecimals 5, maxLeverage 40, onlyIsolated 0), then the
string length word 3 and the zero-padded data `"BTC"` (256 bytes). -/
def btcResponse : List Nat :=
  word 0x20 ++ word 0xa0 ++ word 50 ++ word 5 ++ word 40 ++ word 0 ++
    word 3 ++ ([0x42, 0x54, 0x43] ++ List.replicate 29 0)

/-- `btcResponse` truncated in the middle of the string-length word: only 4
of that word's 32 bytes remain (196 bytes in total). -/
def btcTruncatedMidLength : List Nat :=
  word 0x20 ++ word 0xa0 ++ word 50 ++ word 5 ++ word 40 ++ word 0 ++ [0, 0, 0, 0]

/-- `btcResponse` truncated to its first seven words (224 bytes): the string
length word is intact but the 32-byte string data region is entirely
absent. -/
def btcDataRegionMissing : List Nat :=
  word 0x20 ++ word 0xa0 ++ word 50 ++ word 5 ++ word 40 ++ word 0 ++ word 3

/-! ## Helper lemmas and claim theorems -/

set_option maxRecDepth 100000

/-- Any byte list shorter than 4 makes `decode_action` raise `IndexError`. -/
theorem decode_action_bytes_short (bs : List Nat) (h : bs.length < 4) :
    decode_action_bytes bs = .error .indexError := by
  match bs with
  | [] => rfl
  | [_] => rfl
  | [_, _] => rfl
  | [_, _, _] => rfl
  | _ :: _ :: _ :: _ :: _ => simp at h; omega

/-- A non-whitespace, non-hex-digit character anywhere makes `fromhex`
raise. -/
theorem fromhex_invalid_char :
    ∀ l : List Char, (∃ c ∈ l, isAsciiWs c = false ∧ hexDigitVal c = none) →
      fromhex l = .error .valueError := by
  have key : ∀ (n : Nat) (l : List Char), l.length ≤ n →
      (∃ c ∈ l, isAsciiWs c = false ∧ hexDigitVal c = none) →
      fromhex l = .error .valueError := by
    intro n
    induction n with
    | zero =>
      intro l hl hex
      match l with
      | [] => simp at hex
      | _ :: _ => simp at hl
    | succ n ih =>
      intro l hl hex
      match l with
      | [] => simp at hex
      | c :: rest =>
        by_cases hc : isAsciiWs c = true
        · have hrest : ∃ x ∈ rest, isAsciiWs x = false ∧ hexDigitVal x = none := by
            obtain ⟨x, hx, hxw, hxn⟩ := hex
            rcases List.mem_cons.mp hx with rfl | hx2
            · rw [hc] at hxw; simp at hxw
            · exact ⟨x, hx2, hxw, hxn⟩
          have := ih rest (by simp at hl; omega) hrest
          rw [fromhex.eq_def]; simpa [hc] using this
        · rw [Bool.not_eq_true] at hc
          rcases hv : hexDigitVal c with _ | v
          · match rest with
            | [] => rw [fromhex.eq_def]; simp [hc]
            | c2 :: rest2 => rw [fromhex.eq_def]; simp [hc, hv]
          · match rest with
            | [] => rw [fromhex.eq_def]; simp [hc]
            | c2 :: rest2 =>
              rcases hv2 : hexDigitVal c2 with _ | v2
              · rw [fromhex.eq_def]; simp [hc, hv, hv2]
              · have hrest2 : ∃ x ∈ rest2, isAsciiWs x = false ∧ hexDigitVal x = none := by
                  obtain ⟨x, hx, hxw, hxn⟩ := hex
                  rcases List.mem_cons.mp hx with rfl | hx2
                  · rw [hv] at hxn; simp at hxn
                  · rcases List.mem_cons.mp hx2 with rfl | hx3
                    · rw [hv2] at hxn; simp at hxn
                    · exact ⟨x, hx3, hxw, hxn⟩
                have herr := ih rest2 (by simp at hl; omega) hrest2
                rw [fromhex.eq_def]; simp [hc, hv, hv2, herr, Except.map]
  intro l hex
  exact key l.length l (Nat.le_refl _) hex

/-- C4: `decode_action` fails immediately on malformed input: a byte input of
fewer than 4 bytes raises `IndexError`; a hex-string input whose normalized
bytes number fewer than 4 raises `IndexError`; and a hex-string input left
with an invalid character — one that is neither a hex digit nor ASCII
whitespace (which `bytes.fromhex` skips) — after `0x` stripping raises
`ValueError`.  No malformed input is absorbed into a successful decode. -/
theorem C4_decode_action_malformed :
    (∀ bs : List Nat, bs.length < 4 → decode_action_bytes bs = .error .indexError) ∧
    (∀ (s : List Char) (bs : List Nat), fromhex (strip0x s) = .ok bs → bs.length < 4 →
      decode_action_hex s = .error .indexError) ∧
    (∀ s : List Char, (∃ c ∈ strip0x s, isAsciiWs c = false ∧ hexDigitVal c = none) →
      decode_action_hex s = .error .valueError) := by
  refine ⟨decode_action_bytes_short, ?_, ?_⟩
  · intro s bs h hlen
    unfold decode_action_hex
    rw [h]
    exact decode_action_bytes_short bs hlen
  · intro s hex
    unfold decode_action_hex
    rw [fromhex_invalid_char (strip0x s) hex]
    rfl

/-- C4 witness: 3-byte input, 2-byte hex input, invalid hex characters. -/
theorem C4_decode_action_malformed_witness :
    decode_action_bytes [0x01, 0x00, 0x00] = .error .indexError ∧
    decode_action_hex ['0', 'x', '1', '2'] = .error .indexError ∧
    decode_action_hex ['z', 'z'] = .error .valueError :=
  ⟨C4_decode_action_malformed.1 _ (by decide),
   C4_decode_action_malformed.2.1 ['0', 'x', '1', '2'] [0x12] rfl (by decide),
   C4_decode_action_malformed.2.2 ['z', 'z'] ⟨'z', by decide⟩⟩

/-- C3: `build_usd_class_transfer` with `ntl = 1000000` and `to_perp = true`
returns exactly the header `01 00 00 07` followed by a 32-byte word of
big-endian value `0x0F4240` (left-zero-padded) and a 32-byte word of value 1. -/
theorem C3_usd_class_transfer_example :
    build_usd_class_transfer ⟨1000000, true⟩ =
      some ([0x01, 0x00, 0x00, 0x07] ++ (List.replicate 29 0 ++ [0x0F, 0x42, 0x40]) ++
        (List.replicate 31 0 ++ [0x01])) := by decide

/-- C1 counterexample: for the wallet address `0x1234`, encoding
`AddApiWallet` with name `"bot1"` puts `0x40`, not the claimed `0x20`, in the
inline offset word (the word right after the address word). -/
theorem C1_offset_word_counterexample :
    (build_add_api_wallet ⟨0x1234, "bot1"⟩).map (fun bs => beVal ((bs.drop 36).take 32)) =
      some 0x40 ∧ (0x40 : Nat) ≠ 0x20 := by decide

/-- C1 (amended): the `AddApiWallet` parameter tuple is laid out as the
address word, an offset word equal to `0x40` — the byte length of the whole
two-word static head (address word plus the offset word itself) — then a
length word equal to the UTF-8 byte length of the name, then the name's
bytes right-padded with zeros to a 32-byte boundary; for every wallet
address, name `"bot1"` yields length word 4 and data `62 6f 74 31` followed
by 28 zero bytes. -/
theorem C1_add_api_wallet_layout (p : AddApiWalletParams) (h : p.wallet < 2 ^ 160) :
    build_add_api_wallet p =
      some (encode_header ActionId.addApiWallet ++ word p.wallet ++ word 0x40 ++
        (word (utf8Bytes p.name).length ++ utf8Bytes p.name ++
          List.replicate (ceil32 (utf8Bytes p.name).length - (utf8Bytes p.name).length) 0)) ∧
    build_add_api_wallet ⟨p.wallet, "bot1"⟩ =
      some (encode_header ActionId.addApiWallet ++ word p.wallet ++ word 0x40 ++
        (word 4 ++ ([0x62, 0x6F, 0x74, 0x31] ++ List.replicate 28 0))) := by
  have ha : encodeAddress p.wallet = some (word p.wallet) := by
    unfold encodeAddress
    rw [if_pos h]
  have hb : utf8Bytes "bot1" = [0x62, 0x6F, 0x74, 0x31] := by decide
  constructor
  · simp [build_add_api_wallet, ha, concat_bytes, encodeString]
  · simp [build_add_api_wallet, ha, concat_bytes, encodeString, hb, ceil32]

/-- C1 witness: the amended layout at wallet `0x1234`, name `"bot1"`. -/
theorem C1_add_api_wallet_layout_witness :
    build_add_api_wallet ⟨0x1234, "bot1"⟩ =
      some (encode_header ActionId.addApiWallet ++ word 0x1234 ++ word 0x40 ++
        (word 4 ++ ([0x62, 0x6F, 0x74, 0x31] ++ List.replicate 28 0))) :=
  (C1_add_api_wallet_layout ⟨0x1234, "bot1"⟩ (by decide)).2

/-- C2: for every one of the 15 action variants and every well-typed
parameter record (one whose build succeeds), decoding the built action's
header yields version `0x01`, the variant's numeric discriminant as
`action_id`, and the bytes after the 4-byte header as `params`. -/
theorem C2_header_roundtrip :
    (∀ p bs, build_limit_order p = some bs →
      decode_action_bytes bs = .ok ⟨0x01, ActionId.limitOrder, bs.drop 4⟩) ∧
    (∀ p bs, build_vault_transfer p = some bs →
      decode_action_bytes bs = .ok ⟨0x01, ActionId.vaultTransfer, bs.drop 4⟩) ∧
    (∀ p bs, build_token_delegate p = some bs →
      decode_action_bytes bs = .ok ⟨0x01, ActionId.tokenDelegate, bs.drop 4⟩) ∧
    (∀ p bs, build_staking_deposit p = some bs →
      decode_action_bytes bs = .ok ⟨0x01, ActionId.stakingDeposit, bs.drop 4⟩) ∧
    (∀ p bs, build_staking_withdraw p = some bs →
      decode_action_bytes bs = .ok ⟨0x01, ActionId.stakingWithdraw, bs.drop 4⟩) ∧
    (∀ p bs, build_spot_send p = some bs →
      decode_action_bytes bs = .ok ⟨0x01, ActionId.spotSend, bs.drop 4⟩) ∧
    (∀ p bs, build_usd_class_transfer p = some bs →
      decode_action_bytes bs = .ok ⟨0x01, ActionId.usdClassTransfer, bs.drop 4⟩) ∧
    (∀ p bs, build_finalize_evm_contract p = some bs →
      decode_action_bytes bs = .ok ⟨0x01, ActionId.finalizeEvmContract, bs.drop 4⟩) ∧
    (∀ p bs, build_add_api_wallet p = some bs →
      decode_action_bytes bs = .ok ⟨0x01, ActionId.addApiWallet, bs.drop 4⟩) ∧
    (∀ p bs, build_cancel_order_by_oid p = some bs →
      decode_action_bytes bs = .ok ⟨0x01, ActionId.cancelOrderByOid, bs.drop 4⟩) ∧
    (∀ p bs, build_cancel_order_by_cloid p = some bs →
      decode_action_bytes bs = .ok ⟨0x01, ActionId.cancelOrderByCloid, bs.drop 4⟩) ∧
    (∀ p bs, build_approve_builder_fee p = some bs →
      decode_action_bytes bs = .ok ⟨0x01, ActionId.approveBuilderFee, bs.drop 4⟩) ∧
    (∀ p bs, build_send_asset p = some bs →
      decode_action_bytes bs = .ok ⟨0x01, ActionId.sendAsset, bs.drop 4⟩) ∧
    (∀ p bs, build_reflect_evm_supply p = some bs →
      decode_action_bytes bs = .ok ⟨0x01, ActionId.reflectEvmSupply, bs.drop 4⟩) ∧
    (∀ p bs, build_borrow_lend_op p = some bs →
      decode_action_bytes bs = .ok ⟨0x01, ActionId.borrowLendOp, bs.drop 4⟩) := by
  refine ⟨?_, ?_, ?_, ?_, ?_, ?_, ?_, ?_, ?_, ?_, ?_, ?_, ?_, ?_, ?_⟩ <;>
  · intro p bs h
    simp only [build_limit_order, build_vault_transfer, build_token_delegate,
      build_staking_deposit, build_staking_withdraw, build_spot_send,
      build_usd_class_transfer, build_finalize_evm_contract, build_add_api_wallet,
      build_cancel_order_by_oid, build_cancel_order_by_cloid, build_approve_builder_fee,
      build_send_asset, build_reflect_evm_supply, build_borrow_lend_op,
      bind, Option.bind_eq_some, Option.pure_def, Option.some.injEq] at h
    repeat obtain ⟨_, _, h⟩ := h
    try subst h
    rfl

/-- C2 witness: one concrete parameter record per variant. -/
theorem C2_header_roundtrip_witness :
    decode_action_bytes ((build_limit_order ⟨0, false, 0, 0, false, 0, 0⟩).getD []) =
      .ok ⟨0x01, ActionId.limitOrder,
        ((build_limit_order ⟨0, false, 0, 0, false, 0, 0⟩).getD []).drop 4⟩ ∧
    decode_action_bytes ((build_vault_transfer ⟨0, false, 0⟩).getD []) =
      .ok ⟨0x01, ActionId.vaultTransfer, ((build_vault_transfer ⟨0, false, 0⟩).getD []).drop 4⟩ ∧
    decode_action_bytes ((build_token_delegate ⟨0, 0, false⟩).getD []) =
      .ok ⟨0x01, ActionId.tokenDelegate, ((build_token_delegate ⟨0, 0, false⟩).getD []).drop 4⟩ ∧
    decode_action_bytes ((build_staking_deposit ⟨0⟩).getD []) =
      .ok ⟨0x01, ActionId.stakingDeposit, ((build_staking_deposit ⟨0⟩).getD []).drop 4⟩ ∧
    decode_action_bytes ((build_staking_withdraw ⟨0⟩).getD []) =
      .ok ⟨0x01, ActionId.stakingWithdraw, ((build_staking_withdraw ⟨0⟩).getD []).drop 4⟩ ∧
    decode_action_bytes ((build_spot_send ⟨0, 0, 0⟩).getD []) =
      .ok ⟨0x01, ActionId.spotSend, ((build_spot_send ⟨0, 0, 0⟩).getD []).drop 4⟩ ∧
    decode_action_bytes ((build_usd_class_transfer ⟨0, false⟩).getD []) =
      .ok ⟨0x01, ActionId.usdClassTransfer,
        ((build_usd_class_transfer ⟨0, false⟩).getD []).drop 4⟩ ∧
    decode_action_bytes ((build_finalize_evm_contract ⟨0, 0, 0⟩).getD []) =
      .ok ⟨0x01, ActionId.finalizeEvmContract,
        ((build_finalize_evm_contract ⟨0, 0, 0⟩).getD []).drop 4⟩ ∧
    decode_action_bytes ((build_add_api_wallet ⟨0, "a"⟩).getD []) =
      .ok ⟨0x01, ActionId.addApiWallet, ((build_add_api_wallet ⟨0, "a"⟩).getD []).drop 4⟩ ∧
    decode_action_bytes ((build_cancel_order_by_oid ⟨0, 0⟩).getD []) =
      .ok ⟨0x01, ActionId.cancelOrderByOid,
        ((build_cancel_order_by_oid ⟨0, 0⟩).getD []).drop 4⟩ ∧
    decode_action_bytes ((build_cancel_order_by_cloid ⟨0, 0⟩).getD []) =
      .ok ⟨0x01, ActionId.cancelOrderByCloid,
        ((build_cancel_order_by_cloid ⟨0, 0⟩).getD []).drop 4⟩ ∧
    decode_action_bytes ((build_approve_builder_fee ⟨0, 0⟩).getD []) =
      .ok ⟨0x01, ActionId.approveBuilderFee,
        ((build_approve_builder_fee ⟨0, 0⟩).getD []).drop 4⟩ ∧
    decode_action_bytes ((build_send_asset ⟨0, 0, 0, 0, 0, 0⟩).getD []) =
      .ok ⟨0x01, ActionId.sendAsset, ((build_send_asset ⟨0, 0, 0, 0, 0, 0⟩).getD []).drop 4⟩ ∧
    decode_action_bytes ((build_reflect_evm_supply ⟨0, 0, false⟩).getD []) =
      .ok ⟨0x01, ActionId.reflectEvmSupply,
        ((build_reflect_evm_supply ⟨0, 0, false⟩).getD []).drop 4⟩ ∧
    decode_action_bytes ((build_borrow_lend_op ⟨0, 0, 0⟩).getD []) =
      .ok ⟨0x01, ActionId.borrowLendOp, ((build_borrow_lend_op ⟨0, 0, 0⟩).getD []).drop 4⟩ := by
  have t := C2_header_roundtrip
  exact ⟨t.1 (⟨0, false, 0, 0, false, 0, 0⟩ : LimitOrderParams) ((build_limit_order (⟨0, false, 0, 0, false, 0, 0⟩ : LimitOrderParams)).getD []) (by decide),
    t.2.1 (⟨0, false, 0⟩ : VaultTransferParams) ((build_vault_transfer (⟨0, false, 0⟩ : VaultTransferParams)).getD []) (by decide),
    t.2.2.1 (⟨0, 0, false⟩ : TokenDelegateParams) ((build_token_delegate (⟨0, 0, false⟩ : TokenDelegateParams)).getD []) (by decide),
    t.2.2.2.1 (⟨0⟩ : StakingParams) ((build_staking_deposit (⟨0⟩ : StakingParams)).getD []) (by decide),
    t.2.2.2.2.1 (⟨0⟩ : StakingParams) ((build_staking_withdraw (⟨0⟩ : StakingParams)).getD []) (by decide),
    t.2.2.2.2.2.1 (⟨0, 0, 0⟩ : SpotSendParams) ((build_spot_send (⟨0, 0, 0⟩ : SpotSendParams)).getD []) (by decide),
    t.2.2.2.2.2.2.1 (⟨0, false⟩ : UsdClassTransferParams) ((build_usd_class_transfer (⟨0, false⟩ : UsdClassTransferParams)).getD []) (by decide),
    t.2.2.2.2.2.2.2.1 (⟨0, 0, 0⟩ : FinalizeEvmContractParams) ((build_finalize_evm_contract (⟨0, 0, 0⟩ : FinalizeEvmContractParams)).getD []) (by decide),
    t.2.2.2.2.2.2.2.2.1 (⟨0, "a"⟩ : AddApiWalletParams) ((build_add_api_wallet (⟨0, "a"⟩ : AddApiWalletParams)).getD []) (by decide),
    t.2.2.2.2.2.2.2.2.2.1 (⟨0, 0⟩ : CancelOrderByOidParams) ((build_cancel_order_by_oid (⟨0, 0⟩ : CancelOrderByOidParams)).getD []) (by decide),
    t.2.2.2.2.2.2.2.2.2.2.1 (⟨0, 0⟩ : CancelOrderByCloidParams) ((build_cancel_order_by_cloid (⟨0, 0⟩ : CancelOrderByCloidParams)).getD []) (by decide),
    t.2.2.2.2.2.2.2.2.2.2.2.1 (⟨0, 0⟩ : ApproveBuilderFeeParams) ((build_approve_builder_fee (⟨0, 0⟩ : ApproveBuilderFeeParams)).getD []) (by decide),
    t.2.2.2.2.2.2.2.2.2.2.2.2.1 (⟨0, 0, 0, 0, 0, 0⟩ : SendAssetParams) ((build_send_asset (⟨0, 0, 0, 0, 0, 0⟩ : SendAssetParams)).getD []) (by decide),
    t.2.2.2.2.2.2.2.2.2.2.2.2.2.1 (⟨0, 0, false⟩ : ReflectEvmSupplyParams) ((build_reflect_evm_supply (⟨0, 0, false⟩ : ReflectEvmSupplyParams)).getD []) (by decide),
    t.2.2.2.2.2.2.2.2.2.2.2.2.2.2 (⟨0, 0, 0⟩ : BorrowLendOpParams) ((build_borrow_lend_op (⟨0, 0, 0⟩ : BorrowLendOpParams)).getD []) (by decide)⟩

/-! ## chunk_list lemmas -/

/-- `chunk_list` of the empty list is empty. -/
theorem chunk_list_nil (k : Nat) : chunk_list ([] : List α) k = [] := by
  cases k with
  | zero => simp [chunk_list]
  | succ n => simp [chunk_list, Nat.div_eq_of_lt (Nat.lt_succ_self n)]

/-- Unfolding `chunk_list` on a nonempty list with positive chunk size. -/
theorem chunk_list_cons (x : α) (rest : List α) (k : Nat) (hk : 0 < k) :
    chunk_list (x :: rest) k =
      (x :: rest).take k :: chunk_list ((x :: rest).drop k) k := by
  unfold chunk_list
  have h1 : (x :: rest).length + k - 1 = rest.length + k := by
    simp only [List.length_cons]
    omega
  have h2 : ((x :: rest).drop k).length + k - 1 = rest.length + 1 - k + k - 1 := by simp
  have h3 : (rest.length + 1 - k + k - 1) / k = rest.length / k := by
    rcases le_or_lt k (rest.length + 1) with hle | hlt
    · have : rest.length + 1 - k + k - 1 = rest.length := by omega
      rw [this]
    · have hz : rest.length + 1 - k = 0 := by omega
      rw [hz]
      rw [Nat.zero_add]
      rw [Nat.div_eq_of_lt (by omega), Nat.div_eq_of_lt (by omega)]
  rw [h1, h2, h3, Nat.add_div_right _ hk, List.range_succ_eq_map, List.map_cons,
    List.map_map]
  simp only [Nat.zero_mul, List.drop_zero]
  congr 1
  apply List.map_congr_left
  intro j _
  simp only [Function.comp_apply]
  rw [List.drop_drop]
  congr 2
  rw [Nat.succ_mul]
  omega

/-- The chunks concatenate back to the original list. -/
theorem chunk_list_flatten (k : Nat) (hk : 0 < k) :
    ∀ lst : List α, (chunk_list lst k).flatten = lst
  | [] => by simp [chunk_list_nil]
  | x :: rest => by
    rw [chunk_list_cons x rest k hk, List.flatten_cons,
      chunk_list_flatten k hk ((x :: rest).drop k)]
    exact List.take_append_drop k (x :: rest)
termination_by lst => lst.length
decreasing_by simp; omega

/-- Every chunk has length at most `k`. -/
theorem chunk_list_length_le (k : Nat) (hk : 0 < k) :
    ∀ lst : List α, ∀ c ∈ chunk_list lst k, c.length ≤ k
  | [] => by simp [chunk_list_nil]
  | x :: rest => by
    rw [chunk_list_cons x rest k hk]
    intro c hc
    rcases List.mem_cons.mp hc with rfl | hc2
    · simp [List.length_take]
    · exact chunk_list_length_le k hk ((x :: rest).drop k) c hc2
termination_by lst => lst.length
decreasing_by simp; omega

/-- Every chunk except possibly the last has length exactly `k`. -/
theorem chunk_list_full (k : Nat) (hk : 0 < k) :
    ∀ lst : List α, ∀ c ∈ (chunk_list lst k).dropLast, c.length = k
  | [] => by simp [chunk_list_nil]
  | x :: rest => by
    rw [chunk_list_cons x rest k hk]
    by_cases hdrop : chunk_list ((x :: rest).drop k) k = []
    · simp [hdrop]
    · intro c hc
      rw [List.dropLast_cons_of_ne_nil hdrop] at hc
      rcases List.mem_cons.mp hc with rfl | hc2
      · have hne : (x :: rest).drop k ≠ [] := by
          intro h0
          rw [h0, chunk_list_nil] at hdrop
          exact hdrop rfl
        have hlen : k < (x :: rest).length := by
          by_contra hle
          push_neg at hle
          exact hne (List.drop_eq_nil_of_le hle)
        simp only [List.length_cons] at hlen
        simp [List.length_take]
        omega
      · exact chunk_list_full k hk ((x :: rest).drop k) c hc2
termination_by lst => lst.length
decreasing_by simp; omega

/-- C10: for every list and every positive chunk size, the chunks
concatenate in order to exactly the input list, every chunk has length at
most `chunk_size`, and every chunk except possibly the last has length
exactly `chunk_size`. -/
theorem C10_chunk_list_correct (lst : List α) (chunk_size : Nat)
    (hk : 0 < chunk_size) :
    (chunk_list lst chunk_size).flatten = lst ∧
    (∀ c ∈ chunk_list lst chunk_size, c.length ≤ chunk_size) ∧
    (∀ c ∈ (chunk_list lst chunk_size).dropLast, c.length = chunk_size) :=
  ⟨chunk_list_flatten chunk_size hk lst, chunk_list_length_le chunk_size hk lst,
    chunk_list_full chunk_size hk lst⟩

/-- C10 witness: a 5-element list chunked by 2. -/
theorem C10_chunk_list_correct_witness :
    (chunk_list [0, 1, 2, 3, 4] 2).flatten = [0, 1, 2, 3, 4] :=
  (C10_chunk_list_correct [0, 1, 2, 3, 4] 2 (by decide)).1

/-! ## _parse_perp_asset_info lemmas -/

/-- `hexOfBytes` yields two characters per byte. -/
theorem hexOfBytes_length (bs : List Nat) : (hexOfBytes bs).length = 2 * bs.length := by
  induction bs with
  | nil => rfl
  | cons b bs ih => simp [hexOfBytes] at ih ⊢; omega

/-- `hexDigitVal` inverts `hexCharOfNat` on one digit. -/
theorem hexDigitVal_hexCharOfNat (x : Nat) (hx : x < 16) :
    hexDigitVal (hexCharOfNat x) = some x := by
  interval_cases x <;> decide

/-- `int(s, 16)` on the two hex characters of one byte returns the byte. -/
theorem intHex_pair (d : Nat) (hd : d < 256) :
    intHex [hexCharOfNat (d / 16), hexCharOfNat (d % 16)] = some d := by
  have h1 := hexDigitVal_hexCharOfNat (d / 16) (by omega)
  have h2 := hexDigitVal_hexCharOfNat (d % 16) (by omega)
  simp [intHex, h1, h2]
  omega

/-- The coin-building loop over the hex of a byte list appends exactly the
positive byte values, as characters, to the accumulator. -/
theorem buildCoin_hexOfBytes :
    ∀ (ds : List Nat) (acc : String), (∀ d ∈ ds, d < 256) →
      buildCoin (hexOfBytes ds) acc =
        some (String.mk (acc.data ++ (ds.filter (fun d => 0 < d)).map Char.ofNat))
  | [], acc, _ => by simp [hexOfBytes, buildCoin]
  | d :: ds, acc, h => by
    have hd : d < 256 := h d (List.mem_cons_self d ds)
    have hds : ∀ x ∈ ds, x < 256 := fun x hx => h x (List.mem_cons_of_mem d hx)
    have hcons : hexOfBytes (d :: ds) =
        hexCharOfNat (d / 16) :: hexCharOfNat (d % 16) :: hexOfBytes ds := by
      simp [hexOfBytes]
    rw [hcons]
    simp only [buildCoin, intHex_pair d hd, bind, Option.some_bind]
    rw [buildCoin_hexOfBytes ds _ hds]
    by_cases hdpos : 0 < d
    · simp [hdpos, List.filter_cons, String.push]
    · simp [hdpos, List.filter_cons]

/-- C6: parsing the well-formed `"BTC"` response yields `coin = "BTC"` (with
the other head fields decoded alongside), and in general the coin symbol is
built one byte per character code from the string data, skipping bytes equal
to 0 as padding. -/
theorem C6_perp_asset_info_btc :
    parse_perp_asset_info btcResponse 0 = some ⟨0, "BTC", 50, 5, 40, false⟩ ∧
    (∀ ds : List Nat, (∀ d ∈ ds, d < 256) →
      buildCoin (hexOfBytes ds) "" =
        some (String.mk ((ds.filter (fun d => 0 < d)).map Char.ofNat))) := by
  constructor
  · decide
  · intro ds h
    simpa using buildCoin_hexOfBytes ds "" h

/-- C6 witness: the coin loop on bytes `42 00 54` yields `"BT"` (the zero
byte is skipped). -/
theorem C6_perp_asset_info_btc_witness :
    buildCoin (hexOfBytes [0x42, 0x00, 0x54]) "" =
      some (String.mk (([0x42, 0x00, 0x54].filter (fun d => 0 < d)).map Char.ofNat)) :=
  C6_perp_asset_info_btc.2 [0x42, 0x00, 0x54] (by decide)

/-- C5 counterexample: a response truncated mid-string-length-word does not
return `None`: Python `int` parses the partial (all-zero) hex slice as 0, so
the parse returns a record with an empty coin. -/
theorem C5_truncated_counterexample :
    parse_perp_asset_info btcTruncatedMidLength 7 = some ⟨7, "", 50, 5, 40, false⟩ := by
  decide

/-- C5 (amended): `_parse_perp_asset_info` either returns a record or `None`
for every response byte string (it is modelled as a total function: no
out-of-bounds access, no escaping exception), and any response of at most
32 bytes — in particular a zero-length response — returns `None`.  Longer
truncations, however, need not return `None`: even a response whose 32-byte
string data region is entirely absent (and likewise one cut mid
string-length-word, see the counterexample) still returns a record with an
empty coin, because Python string slicing clips and `int` parses whatever
hex is present. -/
theorem C5_parse_truncation (data : List Nat) (index : Nat) (h : data.length ≤ 32) :
    parse_perp_asset_info data index = none ∧
    parse_perp_asset_info btcDataRegionMissing 5 = some ⟨5, "", 50, 5, 40, false⟩ := by
  constructor
  · have hlen : (hexOfBytes data).length ≤ 64 := by
      rw [hexOfBytes_length]; omega
    unfold parse_perp_asset_info
    rcases h0 : read_uint (hexOfBytes data) 0 with _ | w0
    · simp [h0]
    · rcases Nat.eq_zero_or_pos (w0 / 32) with ht | ht
      · have h1 : read_uint (hexOfBytes data) 1 = none := by
          unfold read_uint sliceStr
          rw [List.drop_eq_nil_of_le (by omega)]
          rfl
        simp [h0, ht, h1]
      · have h1 : read_uint (hexOfBytes data) (w0 / 32) = none := by
          unfold read_uint sliceStr
          rw [List.drop_eq_nil_of_le (by
            have : 64 ≤ w0 / 32 * 64 := by omega
            omega)]
          rfl
        simp [h0, h1]
  · decide

/-- C5 witness: a 32-byte all-zero response parses to `None` (and the
224-byte truncation still parses to a record). -/
theorem C5_parse_truncation_witness :
    parse_perp_asset_info (List.replicate 32 0) 3 = none :=
  (C5_parse_truncation (List.replicate 32 0) 3 (by decide)).1

/-! ## Encode/decode helper lemmas -/

theorem encodeAddress_lt {a : Nat} (h : a < 2 ^ 160) : encodeAddress a = some (word a) := by
  unfold encodeAddress
  rw [if_pos h]

theorem encodeUint_lt {bits n : Nat} (h : n < 2 ^ bits) : encodeUint bits n = some (word n) := by
  unfold encodeUint
  rw [if_pos h]

theorem decUint_lt {bits : Nat} {w : List Nat} (h : beVal w < 2 ^ bits) :
    decUint bits w = some (beVal w) := by
  unfold decUint
  rw [if_pos h]

theorem wordAt_of_le {data : List Nat} {i : Nat} (h : 32 * (i + 1) ≤ data.length) :
    wordAt data i = some ((data.drop (32 * i)).take 32) := by
  unfold wordAt
  rw [if_pos h]

/-- A successful strict decode of the 3-word spot-balance tuple needs at
least 96 bytes. -/
theorem decode_spot_balance_tuple_short {d : List Nat} (h : d.length < 96) :
    decode_spot_balance_tuple d = none := by
  unfold decode_spot_balance_tuple
  rcases hw0 : wordAt d 0 with _ | w0
  · simp [hw0]
  · rcases hu0 : decUint 64 w0 with _ | v0
    · simp [hw0, hu0]
    · rcases hw1 : wordAt d 1 with _ | w1
      · simp [hw0, hu0, hw1]
      · rcases hu1 : decUint 64 w1 with _ | v1
        · simp [hw0, hu0, hw1, hu1]
        · have hw2 : wordAt d 2 = none := by
            unfold wordAt
            rw [if_neg (by omega)]
          simp [hw0, hu0, hw1, hu1, hw2]

/-- C8 counterexample: a successful batch element whose payload is exactly
24 bytes yields no record: the `len(return_data) >= 24` guard passes but
`decode(["uint64","uint64","uint64"], ...)` needs 96 bytes, raises, and the
exception is swallowed, so the decoded list is empty. -/
theorem C8_24_byte_payload_counterexample :
    batch_get_spot_balances (fun _ => [(true, List.replicate 24 0)]) 0 [0] = some [] := by
  decide

/-- `decUint` fails on a word whose value needs more than `bits` bits
(nonzero padding bytes). -/
theorem decUint_not_lt {bits : Nat} {w : List Nat} (h : ¬ beVal w < 2 ^ bits) :
    decUint bits w = none := by
  unfold decUint
  rw [if_neg h]

/-- Full characterization of the strict 3-word decode: it succeeds exactly
on payloads of at least 96 bytes each of whose first three 32-byte words
fits in 64 bits (zero upper padding), returning those three values. -/
theorem decode_spot_balance_tuple_eq (d : List Nat) :
    decode_spot_balance_tuple d =
      if 96 ≤ d.length ∧ beVal (d.take 32) < 2 ^ 64 ∧
          beVal ((d.drop 32).take 32) < 2 ^ 64 ∧ beVal ((d.drop 64).take 32) < 2 ^ 64
      then some (beVal (d.take 32), beVal ((d.drop 32).take 32), beVal ((d.drop 64).take 32))
      else none := by
  by_cases hlen : 96 ≤ d.length
  · unfold decode_spot_balance_tuple
    rw [wordAt_of_le (show 32 * (0 + 1) ≤ d.length by omega),
      wordAt_of_le (show 32 * (1 + 1) ≤ d.length by omega),
      wordAt_of_le (show 32 * (2 + 1) ≤ d.length by omega)]
    norm_num [bind, Option.some_bind]
    by_cases h0 : beVal (d.take 32) < 2 ^ 64
    · rw [decUint_lt h0]
      by_cases h1 : beVal ((d.drop 32).take 32) < 2 ^ 64
      · rw [decUint_lt h1]
        by_cases h2 : beVal ((d.drop 64).take 32) < 2 ^ 64
        · rw [decUint_lt h2, if_pos ⟨hlen, h0, h1, h2⟩]
          simp
        · rw [decUint_not_lt h2, if_neg (by tauto)]
          simp
      · rw [decUint_not_lt h1, if_neg (by tauto)]
        simp
    · rw [decUint_not_lt h0, if_neg (by tauto)]
      simp
  · rw [decode_spot_balance_tuple_short (by omega), if_neg (by tauto)]

/-- C8 (amended): in every batch, `batch_get_spot_balances` runs one
`spotBalanceElem` attempt per (index, result) slot, and a successful batch
element decodes a `SpotBalance` record — fields `total`, `hold`, `entryNtl`
the unsigned 64-bit big-endian values of the payload's first three 32-byte
words — if and only if the payload is at least 96 bytes long with each of
those words' upper 24 padding bytes zero; any other successful element, in
particular one with a payload shorter than 96 bytes (so also the spec's
24-byte bound) or with nonzero padding, produces no record for its index. -/
theorem C8_spot_balance_decode :
    (∀ (o : Oracle) (user : Nat) (idxs : List Nat) (cl : List Call),
      mkSpotBalanceCalls user idxs = some cl →
      batch_get_spot_balances o user idxs =
        some ((idxs.zip (o cl)).filterMap (fun (idx, e) => spotBalanceElem idx e))) ∧
    (∀ (i : Nat) (s : Bool) (d : List Nat),
      spotBalanceElem i (s, d) =
        if s = true ∧ 96 ≤ d.length ∧ beVal (d.take 32) < 2 ^ 64 ∧
            beVal ((d.drop 32).take 32) < 2 ^ 64 ∧ beVal ((d.drop 64).take 32) < 2 ^ 64
        then some ⟨i, beVal (d.take 32), beVal ((d.drop 32).take 32),
          beVal ((d.drop 64).take 32)⟩
        else none) := by
  constructor
  · intro o user idxs cl h
    unfold batch_get_spot_balances
    rw [h]
    rfl
  · intro i s d
    unfold spotBalanceElem
    rw [decode_spot_balance_tuple_eq]
    cases s with
    | false => simp
    | true =>
      rcases Nat.lt_or_ge d.length 24 with h24 | h24
      · rw [if_neg (show ¬(((true, d) : BatchElem).1 = true ∧
            ((true, d) : BatchElem).2.length ≥ 24) from by
          rintro ⟨-, hh⟩
          simp at hh
          omega)]
        rw [if_neg (show ¬((true = true) ∧ 96 ≤ d.length ∧ beVal (d.take 32) < 2 ^ 64 ∧
            beVal ((d.drop 32).take 32) < 2 ^ 64 ∧ beVal ((d.drop 64).take 32) < 2 ^ 64) from by
          rintro ⟨-, h96, -⟩
          omega)]
      · rw [if_pos (show ((true, d) : BatchElem).1 = true ∧
            ((true, d) : BatchElem).2.length ≥ 24 from ⟨rfl, h24⟩)]
        by_cases hC : 96 ≤ d.length ∧ beVal (d.take 32) < 2 ^ 64 ∧
            beVal ((d.drop 32).take 32) < 2 ^ 64 ∧ beVal ((d.drop 64).take 32) < 2 ^ 64
        · have hC5 : (true = true) ∧ 96 ≤ d.length ∧ beVal (d.take 32) < 2 ^ 64 ∧
              beVal ((d.drop 32).take 32) < 2 ^ 64 ∧ beVal ((d.drop 64).take 32) < 2 ^ 64 :=
            ⟨rfl, hC⟩
          rw [if_pos hC, if_pos hC5]
        · have hC5 : ¬((true = true) ∧ 96 ≤ d.length ∧ beVal (d.take 32) < 2 ^ 64 ∧
              beVal ((d.drop 32).take 32) < 2 ^ 64 ∧ beVal ((d.drop 64).take 32) < 2 ^ 64) := by
            rintro ⟨-, h⟩
            exact hC h
          rw [if_neg hC, if_neg hC5]

/-- C8 witness: a singleton batch whose one successful element carries a
96-byte all-zero payload decodes to the zero balance record. -/
theorem C8_spot_balance_decode_witness :
    batch_get_spot_balances (fun _ => [(true, List.replicate 96 0)]) 0 [0] =
      some [⟨0, 0, 0, 0⟩] :=
  C8_spot_balance_decode.1 (fun _ => [(true, List.replicate 96 0)]) 0 [0]
    [(spotBalanceAddr, true, word 0 ++ word 0)] (by decide)

/-- C9: `get_non_zero_positions` returns exactly the elements of
`get_all_positions` with `szi ≠ 0`, in order, and `get_non_zero_balances`
returns exactly the elements of `get_all_spot_balances` with `total ≠ 0`,
in order. -/
theorem C9_non_zero_filter (o : Oracle) (user : Nat) :
    (∀ ps, get_all_positions o user = some ps →
      get_non_zero_positions o user = some (ps.filter (fun p => p.szi ≠ 0)) ∧
      (∀ p, p ∈ ps.filter (fun p : Position => p.szi ≠ 0) ↔ p ∈ ps ∧ p.szi ≠ 0) ∧
      List.Sublist (ps.filter (fun p : Position => p.szi ≠ 0)) ps) ∧
    (∀ bs, get_all_spot_balances o user = some bs →
      get_non_zero_balances o user = some (bs.filter (fun b => b.total ≠ 0)) ∧
      (∀ b, b ∈ bs.filter (fun b : SpotBalance => b.total ≠ 0) ↔ b ∈ bs ∧ b.total ≠ 0) ∧
      List.Sublist (bs.filter (fun b : SpotBalance => b.total ≠ 0)) bs) := by
  constructor
  · intro ps hps
    refine ⟨?_, ?_, List.filter_sublist ps⟩
    · unfold get_non_zero_positions
      rw [hps]
      rfl
    · intro p
      simp [List.mem_filter]
  · intro bs hbs
    refine ⟨?_, ?_, List.filter_sublist bs⟩
    · unfold get_non_zero_balances
      rw [hbs]
      rfl
    · intro b
      simp [List.mem_filter]

/-- Each record produced by the position result loop carries the logical
index of its slot, so the produced indices form a sublist of the requested
indices. -/
theorem collectPositions_sublist :
    ∀ (idxs : List Nat) (rs : List BatchElem),
      List.Sublist ((collectPositions idxs rs).map Position.perp_index) idxs
  | [], rs => by simp [collectPositions]
  | i :: is, [] => by simp [collectPositions]
  | i :: is, r :: rs2 => by
    rcases r with ⟨s, d⟩
    by_cases hg : s = true ∧ d.length ≥ 32
    · rcases hdec : decode_position_tuple d with _ | ⟨szi, en, iso, lev, isob⟩
      · have : collectPositions (i :: is) ((s, d) :: rs2) = collectPositions is rs2 := by
          simp [collectPositions, List.filterMap_cons, hg.1, hg.2, hdec]
        rw [this]
        exact List.Sublist.cons i (collectPositions_sublist is rs2)
      · have : collectPositions (i :: is) ((s, d) :: rs2) =
            ⟨i, szi, en, iso, lev, isob⟩ :: collectPositions is rs2 := by
          simp [collectPositions, List.filterMap_cons, hg.1, hg.2, hdec]
        rw [this]
        exact List.Sublist.cons₂ i (collectPositions_sublist is rs2)
    · have : collectPositions (i :: is) ((s, d) :: rs2) = collectPositions is rs2 := by
        simp only [collectPositions, List.zip_cons_cons, List.filterMap_cons]
        rw [if_neg (by simpa using hg)]
      rw [this]
      exact List.Sublist.cons i (collectPositions_sublist is rs2)

/-- The position result loop yields at most one record per requested index. -/
theorem collectPositions_length_le (idxs : List Nat) (rs : List BatchElem) :
    (collectPositions idxs rs).length ≤ idxs.length := by
  have h := (collectPositions_sublist idxs rs).length_le
  simpa using h

/-- With as many results as requests, an element with `success = false`
leaves at least one requested index without a record. -/
theorem collectPositions_length_lt :
    ∀ (idxs : List Nat) (rs : List BatchElem), rs.length = idxs.length →
      (∃ e ∈ rs, e.1 = false) → (collectPositions idxs rs).length < idxs.length
  | [], rs, hlen, hfail => by
    have hnil : rs = [] := List.length_eq_zero.mp (by simpa using hlen)
    subst hnil
    simp at hfail
  | i :: is, [], hlen, hfail => by simp at hfail
  | i :: is, r :: rs2, hlen, hfail => by
    rcases r with ⟨s, d⟩
    cases s with
    | false =>
      have hcoll : collectPositions (i :: is) ((false, d) :: rs2) =
          collectPositions is rs2 := by
        simp [collectPositions, List.filterMap_cons]
      rw [hcoll]
      have := collectPositions_length_le is rs2
      simp only [List.length_cons]
      omega
    | true =>
      have hfail2 : ∃ e ∈ rs2, e.1 = false := by
        rcases hfail with ⟨e, he, hef⟩
        rcases List.mem_cons.mp he with rfl | he2
        · simp at hef
        · exact ⟨e, he2, hef⟩
      have hlen2 : rs2.length = is.length := by simpa using hlen
      have ih := collectPositions_length_lt is rs2 hlen2 hfail2
      have hshape : (collectPositions (i :: is) ((true, d) :: rs2)).length ≤
          (collectPositions is rs2).length + 1 := by
        by_cases hg : d.length ≥ 32
        · rcases hdec : decode_position_tuple d with _ | ⟨szi, en, iso, lev, isob⟩
          · simp [collectPositions, List.filterMap_cons, hg, hdec]
          · simp [collectPositions, List.filterMap_cons, hg, hdec]
        · simp only [collectPositions, List.zip_cons_cons, List.filterMap_cons]
          rw [if_neg (by simpa using hg)]
          simp [collectPositions]
      simp only [List.length_cons]
      omega

/-- The drop at `n + 1` is a sublist of the drop at `n`. -/
theorem drop_succ_sublist (l : List Nat) (n : Nat) :
    List.Sublist (l.drop (n + 1)) (l.drop n) := by
  have h1 : (l.drop n).drop 1 = l.drop (n + 1) := by rw [List.drop_drop]
  rw [← h1]
  exact List.drop_sublist 1 (l.drop n)

/-- The keys produced by the price result loop starting at slot `n` form a
sublist of the requested indices from slot `n` on. -/
theorem collectPrices_keys_sublist (idxs : List Nat) :
    ∀ (rs : List BatchElem) (n : Nat) (ps : List (Nat × Nat)),
      collectPrices idxs rs n = some ps →
      List.Sublist (ps.map Prod.fst) (idxs.drop n)
  | [], n, ps => by
    intro h
    simp only [collectPrices, Option.some.injEq] at h
    subst h
    simp
  | (s, d) :: rs2, n, ps => by
    intro h
    simp only [collectPrices] at h
    by_cases hg : s = true ∧ d.length > 0
    · rw [if_pos (by simpa using hg)] at h
      simp only [bind, Option.bind_eq_some, Option.pure_def, Option.some.injEq] at h
      obtain ⟨p, hp, idx, hidx, tail, htail, hps⟩ := h
      subst hps
      obtain ⟨hlt, hget⟩ := List.get?_eq_some.mp hidx
      have hdrop : idxs.drop n = idx :: idxs.drop (n + 1) := by
        rw [List.get_eq_getElem] at hget
        rw [List.drop_eq_getElem_cons hlt, hget]
      rw [hdrop, List.map_cons]
      exact List.Sublist.cons₂ idx (collectPrices_keys_sublist idxs rs2 (n + 1) tail htail)
    · rw [if_neg (by simpa using hg)] at h
      exact (collectPrices_keys_sublist idxs rs2 (n + 1) ps h).trans
        (drop_succ_sublist idxs n)

/-- The price result loop yields at most one entry per batch element. -/
theorem collectPrices_length_le (idxs : List Nat) :
    ∀ (rs : List BatchElem) (n : Nat) (ps : List (Nat × Nat)),
      collectPrices idxs rs n = some ps → ps.length ≤ rs.length
  | [], n, ps => by
    intro h
    simp only [collectPrices, Option.some.injEq] at h
    subst h
    simp
  | (s, d) :: rs2, n, ps => by
    intro h
    simp only [collectPrices] at h
    by_cases hg : s = true ∧ d.length > 0
    · rw [if_pos (by simpa using hg)] at h
      simp only [bind, Option.bind_eq_some, Option.pure_def, Option.some.injEq] at h
      obtain ⟨p, hp, idx, hidx, tail, htail, hps⟩ := h
      subst hps
      have := collectPrices_length_le idxs rs2 (n + 1) tail htail
      simp only [List.length_cons]
      omega
    · rw [if_neg (by simpa using hg)] at h
      have := collectPrices_length_le idxs rs2 (n + 1) ps h
      simp only [List.length_cons]
      omega

/-- An element with `success = false` contributes no entry, so the output is
strictly shorter than the result list. -/
theorem collectPrices_length_lt (idxs : List Nat) :
    ∀ (rs : List BatchElem) (n : Nat) (ps : List (Nat × Nat)),
      collectPrices idxs rs n = some ps → (∃ e ∈ rs, e.1 = false) →
      ps.length < rs.length
  | [], n, ps => by
    intro _ hfail
    simp at hfail
  | (s, d) :: rs2, n, ps => by
    intro h hfail
    simp only [collectPrices] at h
    cases s with
    | false =>
      rw [if_neg (by simp)] at h
      have := collectPrices_length_le idxs rs2 (n + 1) ps h
      simp only [List.length_cons]
      omega
    | true =>
      have hfail2 : ∃ e ∈ rs2, e.1 = false := by
        rcases hfail with ⟨e, he, hef⟩
        rcases List.mem_cons.mp he with rfl | he2
        · simp at hef
        · exact ⟨e, he2, hef⟩
      by_cases hg : d.length > 0
      · rw [if_pos (by simpa using hg)] at h
        simp only [bind, Option.bind_eq_some, Option.pure_def, Option.some.injEq] at h
        obtain ⟨p, hp, idx, hidx, tail, htail, hps⟩ := h
        subst hps
        have := collectPrices_length_lt idxs rs2 (n + 1) tail htail hfail2
        simp only [List.length_cons]
        omega
      · rw [if_neg (by simpa using hg)] at h
        have := collectPrices_length_lt idxs rs2 (n + 1) ps h hfail2
        simp only [List.length_cons]
        omega

/-- `mapOption` preserves length on success. -/
theorem mapOption_length {f : α → Option β} :
    ∀ (l : List α) (res : List β), mapOption f l = some res → res.length = l.length
  | [], res => by
    intro h
    simp only [mapOption, Option.some.injEq] at h
    subst h
    rfl
  | x :: xs, res => by
    intro h
    simp only [mapOption, bind, Option.bind_eq_some, Option.pure_def, Option.some.injEq] at h
    obtain ⟨y, hy, ys, hys, hres⟩ := h
    subst hres
    simp [mapOption_length xs ys hys]

/-- `batch_get_positions` issues one call per requested index. -/
theorem mkPositionCalls_length {user : Nat} {idxs : List Nat} {cl : List Call}
    (h : mkPositionCalls user idxs = some cl) : cl.length = idxs.length := by
  simp only [mkPositionCalls, bind, Option.bind_eq_some] at h
  obtain ⟨ua, hua, hmap⟩ := h
  exact mapOption_length _ _ hmap

/-- `batch_get_mark_prices` issues one call per requested index. -/
theorem mkMarkPxCalls_length {idxs : List Nat} {cl : List Call}
    (h : mkMarkPxCalls idxs = some cl) : cl.length = idxs.length :=
  mapOption_length _ _ h

/-- The 225-index universe chunks by 200 into exactly two chunks. -/
theorem chunks225 : chunk_list (List.range 225) 200 =
    [(List.range 225).take 200, (List.range 225).drop 200] := by decide

/-- Decomposition of a successful `get_all_positions`: two batches, one per
chunk, concatenated. -/
theorem get_all_positions_eq {o : Oracle} {user : Nat} {ps : List Position}
    (h : get_all_positions o user = some ps) :
    ∃ cl1 cl2, mkPositionCalls user ((List.range 225).take 200) = some cl1 ∧
      mkPositionCalls user ((List.range 225).drop 200) = some cl2 ∧
      ps = collectPositions ((List.range 225).take 200) (o cl1) ++
        collectPositions ((List.range 225).drop 200) (o cl2) := by
  rw [get_all_positions, chunks225] at h
  simp only [List.foldlM, bind, Option.bind_eq_some, Option.pure_def, Option.some.injEq,
    batch_get_positions] at h
  obtain ⟨x1, ⟨p1, ⟨cl1, hcl1, hp1⟩, hx1⟩, b, ⟨p2, ⟨cl2, hcl2, hp2⟩, hb⟩, rfl⟩ := h
  subst hp1
  subst hp2
  subst hx1
  subst hb
  exact ⟨cl1, cl2, hcl1, hcl2, by simp⟩

/-- Decomposition of a successful `get_all_mark_prices`: two batches, one
per chunk, with their price dictionaries appended. -/
theorem get_all_mark_prices_eq {o : Oracle} {m : List (Nat × Nat)}
    (h : get_all_mark_prices o = some m) :
    ∃ cl1 cl2 m1 m2, mkMarkPxCalls ((List.range 225).take 200) = some cl1 ∧
      mkMarkPxCalls ((List.range 225).drop 200) = some cl2 ∧
      collectPrices ((List.range 225).take 200) (o cl1) 0 = some m1 ∧
      collectPrices ((List.range 225).drop 200) (o cl2) 0 = some m2 ∧
      m = m1 ++ m2 := by
  rw [get_all_mark_prices, chunks225] at h
  simp only [List.foldlM, bind, Option.bind_eq_some, Option.pure_def, Option.some.injEq,
    batch_get_mark_prices] at h
  obtain ⟨x1, ⟨m1, ⟨cl1, hcl1, hm1⟩, hx1⟩, b, ⟨m2, ⟨cl2, hcl2, hm2⟩, hb⟩, rfl⟩ := h
  subst hx1
  subst hb
  exact ⟨cl1, cl2, m1, m2, hcl1, hcl2, hm1, hm2, by simp⟩

/-- C7: with the 225-index universe and chunk size 200, both batch
aggregators (`get_all_positions` and `get_all_mark_prices`) issue exactly 2
batch calls, carrying 200 and 25 requests (one request per index); for every
length-preserving batch collaborator the merged output holds at most 225
entries, keyed by a sublist of the 225 indices, and is strictly smaller than
225 — a strict subset of the index universe — whenever any batch element
reports `success = false`. -/
theorem C7_batch_aggregator_225 :
    ((chunk_list (List.range 225) 200).map List.length = [200, 25]) ∧
    (∀ (user : Nat) (idxs : List Nat) (cl : List Call),
      mkPositionCalls user idxs = some cl → cl.length = idxs.length) ∧
    (∀ (idxs : List Nat) (cl : List Call),
      mkMarkPxCalls idxs = some cl → cl.length = idxs.length) ∧
    (∀ (o : Oracle) (user : Nat) (ps : List Position),
      (∀ calls, (o calls).length = calls.length) →
      get_all_positions o user = some ps →
      List.Sublist (ps.map Position.perp_index) (List.range 225) ∧ ps.length ≤ 225 ∧
      (∀ c ∈ chunk_list (List.range 225) 200, ∀ cl, mkPositionCalls user c = some cl →
        (∃ e ∈ o cl, e.1 = false) → ps.length < 225)) ∧
    (∀ (o : Oracle) (m : List (Nat × Nat)),
      (∀ calls, (o calls).length = calls.length) →
      get_all_mark_prices o = some m →
      List.Sublist (m.map Prod.fst) (List.range 225) ∧ m.length ≤ 225 ∧
      (∀ c ∈ chunk_list (List.range 225) 200, ∀ cl, mkMarkPxCalls c = some cl →
        (∃ e ∈ o cl, e.1 = false) → m.length < 225)) := by
  refine ⟨by decide, fun user idxs cl h => mkPositionCalls_length h,
    fun idxs cl h => mkMarkPxCalls_length h, ?_, ?_⟩
  · intro o user ps lp hmain
    obtain ⟨cl1, cl2, hcl1, hcl2, rfl⟩ := get_all_positions_eq hmain
    have hsub : List.Sublist
        ((collectPositions ((List.range 225).take 200) (o cl1) ++
          collectPositions ((List.range 225).drop 200) (o cl2)).map Position.perp_index)
        (List.range 225) := by
      rw [List.map_append]
      have := List.Sublist.append
        (collectPositions_sublist ((List.range 225).take 200) (o cl1))
        (collectPositions_sublist ((List.range 225).drop 200) (o cl2))
      rwa [List.take_append_drop] at this
    refine ⟨hsub, ?_, ?_⟩
    · have := hsub.length_le
      simpa using this
    · intro c hc cl hcl hfail
      have h2le := collectPositions_length_le ((List.range 225).drop 200) (o cl2)
      have h1le := collectPositions_length_le ((List.range 225).take 200) (o cl1)
      have hc1len : ((List.range 225).take 200).length = 200 := by simp
      have hc2len : ((List.range 225).drop 200).length = 25 := by simp
      rw [chunks225] at hc
      rcases List.mem_cons.mp hc with rfl | hc2
      · rw [hcl1] at hcl
        injection hcl with hcl
        subst hcl
        have hlt := collectPositions_length_lt ((List.range 225).take 200) (o cl1)
          ((lp cl1).trans (mkPositionCalls_length hcl1)) hfail
        simp only [List.length_append]
        omega
      · rcases List.mem_cons.mp hc2 with rfl | hc3
        · rw [hcl2] at hcl
          injection hcl with hcl
          subst hcl
          have hlt := collectPositions_length_lt ((List.range 225).drop 200) (o cl2)
            ((lp cl2).trans (mkPositionCalls_length hcl2)) hfail
          simp only [List.length_append]
          omega
        · simp at hc3
  · intro o m lp hmain
    obtain ⟨cl1, cl2, m1, m2, hcl1, hcl2, hm1, hm2, rfl⟩ := get_all_mark_prices_eq hmain
    have hk1 := collectPrices_keys_sublist ((List.range 225).take 200) (o cl1) 0 m1 hm1
    have hk2 := collectPrices_keys_sublist ((List.range 225).drop 200) (o cl2) 0 m2 hm2
    rw [List.drop_zero] at hk1 hk2
    have hsub : List.Sublist ((m1 ++ m2).map Prod.fst) (List.range 225) := by
      rw [List.map_append]
      have := List.Sublist.append hk1 hk2
      rwa [List.take_append_drop] at this
    have h1le := collectPrices_length_le ((List.range 225).take 200) (o cl1) 0 m1 hm1
    have h2le := collectPrices_length_le ((List.range 225).drop 200) (o cl2) 0 m2 hm2
    have hr1 : (o cl1).length = 200 := (lp cl1).trans (by
      rw [mkMarkPxCalls_length hcl1]; simp)
    have hr2 : (o cl2).length = 25 := (lp cl2).trans (by
      rw [mkMarkPxCalls_length hcl2]; simp)
    refine ⟨hsub, ?_, ?_⟩
    · simp only [List.length_append]
      omega
    · intro c hc cl hcl hfail
      rw [chunks225] at hc
      rcases List.mem_cons.mp hc with rfl | hc2
      · rw [hcl1] at hcl
        injection hcl with hcl
        subst hcl
        have hlt := collectPrices_length_lt ((List.range 225).take 200) (o cl1) 0 m1 hm1 hfail
        simp only [List.length_append]
        omega
      · rcases List.mem_cons.mp hc2 with rfl | hc3
        · rw [hcl2] at hcl
          injection hcl with hcl
          subst hcl
          have hlt := collectPrices_length_lt ((List.range 225).drop 200) (o cl2) 0 m2 hm2 hfail
          simp only [List.length_append]
          omega
        · simp at hc3

/-- C7 witness: an oracle failing every element is length-preserving and
yields an empty merged output, within the 225-entry bound. -/
theorem C7_batch_aggregator_225_witness :
    get_all_positions (fun calls => calls.map (fun _ => (false, []))) 0 = some [] ∧
    ([] : List Position).length ≤ 225 :=
  ⟨by decide,
   (C7_batch_aggregator_225.2.2.2.1 (fun calls => calls.map (fun _ => (false, []))) 0 []
      (by simp) (by decide)).2.1⟩

/-- C9 witness: with an oracle that fails every element, the all-positions
query returns `some []` and the non-zero query returns its filtered form. -/
theorem C9_non_zero_filter_witness :
    get_non_zero_positions (fun calls => calls.map (fun _ => (false, []))) 0 =
      some (([] : List Position).filter (fun p => p.szi ≠ 0)) :=
  ((C9_non_zero_filter (fun calls => calls.map (fun _ => (false, []))) 0).1 []
    (by decide)).1

end HLDev
